import Mathlib

/-!
Verification development for the LiteCore JSON-to-SQL query compiler
(`src/LiteCore/Query/QueryParser.cc`).  The parser's data model and every
operation the claims depend on are embedded below as executable Lean
definitions, translated function-by-function from the C++ source.
-/

namespace LiteCore

/-- Fleece-style value tree, the input expression language of the query
compiler.  Dictionaries are ordered association lists (iteration order of
`Dict::iterator`); numbers are modelled as integers, the only numeric shape
the compiler's behaviour distinguishes (`isInteger` / `toString`). -/
inductive Value where
  | vnull
  | vbool (b : Bool)
  | vint (n : Int)
  | vstr (s : String)
  | varr (elems : List Value)
  | vdict (entries : List (String × Value))
deriving Repr

/-- The single query-grammar error kind (`error::InvalidQuery` raised by
`fail()`), plus the distinct assertion-failure outcome of the
`Assert(false, "invalid type in kRelationals")` default branches. -/
inductive QPError where
  | invalidQuery
  | assertionFailed
deriving Repr, DecidableEq

/-- Mutable compiler state: construction parameters, the two output text
buffers, the current property-path prefix, and the accumulated FTS property
list (`_tableName`, `_jsonColumnName`, `_sql`, `_sortSQL`, `_propertyPath`,
`_ftsProperties`). -/
structure QPState where
  tableName : String
  jsonColumnName : String
  sql : String
  sortSQL : String
  propertyPath : String
  ftsProperties : List String
deriving Repr, DecidableEq

/-- A freshly constructed compiler (`QueryParser(tableName, columnName)`). -/
def initState (tableName jsonColumnName : String) : QPState :=
  { tableName := tableName, jsonColumnName := jsonColumnName,
    sql := "", sortSQL := "", propertyPath := "", ftsProperties := [] }

/-- Append text to the `_sql` buffer. -/
def emit (t : String) (s : QPState) : QPState := { s with sql := s.sql ++ t }

/-- Append text to the `_sortSQL` buffer. -/
def emitSort (t : String) (s : QPState) : QPState := { s with sortSQL := s.sortSQL ++ t }

/-- One row of the `kRelationals` operator table: operator name, SQL operator
text (null pointer becomes `none`), and dispatch category (`type`, which the
C++ aggregate initializer defaults to 0). -/
structure RelationalEntry where
  op : String
  sqlOp : Option String
  rtype : Nat
deriving Repr, DecidableEq

/-- The closed operator table `kRelationals`, row for row. -/
def kRelationals : List RelationalEntry :=
  [ ⟨"$eq",     some " = ",      0⟩,
    ⟨"$ne",     some " <> ",     0⟩,
    ⟨"$lt",     some " < ",      0⟩,
    ⟨"$lte",    some " <= ",     0⟩,
    ⟨"$le",     some " <= ",     0⟩,
    ⟨"$gt",     some " > ",      0⟩,
    ⟨"$gte",    some " >= ",     0⟩,
    ⟨"$ge",     some " >= ",     0⟩,
    ⟨"$like",   some " LIKE ",   0⟩,
    ⟨"$type",   none,            1⟩,
    ⟨"$exists", none,            2⟩,
    ⟨"$in",     some " IN ",     3⟩,
    ⟨"$nin",    some " NOT IN ", 3⟩,
    ⟨"$size",   none,            4⟩,
    ⟨"$all",    none,            5⟩,
    ⟨"$any",    none,            6⟩,
    ⟨"$elemMatch", none,         7⟩,
    ⟨"$match",  some " MATCH ",  8⟩ ]

/-- `kTypeNames`: Fleece type names indexed by `fleece::valueType`. -/
def kTypeNames : List String :=
  ["null", "boolean", "number", "string", "blob", "array", "object"]

/-- `key.size > 0 && key[0] == '$'`. -/
def isSpecialKey (k : String) : Bool :=
  match k.data with
  | c :: _ => c = '$'
  | [] => false

/-- `getSpecialKey` over the dictionary's entries: the first key starting
with `'$'`, together with its value. -/
def getSpecialKey : List (String × Value) → Option (String × Value)
  | [] => none
  | (k, v) :: rest => if isSpecialKey k then some (k, v) else getSpecialKey rest

/-- `getSpecialKey(const Value*)`: iterating `value->asDict()` yields nothing
when the value is not a dictionary. -/
def getSpecialKeyV (v : Value) : Option (String × Value) :=
  match v with
  | .vdict entries => getSpecialKey entries
  | _ => none

/-- The apostrophe-doubling loop of `writeSQLString` (over the string's
characters). -/
def sqlEscapeChars : List Char → List Char
  | [] => []
  | c :: rest =>
      if c = '\'' then '\'' :: '\'' :: sqlEscapeChars rest
      else c :: sqlEscapeChars rest

/-- The `simple` scan of `writeSQLString`: does the string contain an
apostrophe? -/
def sqlHasQuote : List Char → Bool
  | [] => false
  | c :: rest => if c = '\'' then true else sqlHasQuote rest

/-- `QueryParser::writeSQLString`: emit the string between apostrophes; the
fast path writes the bytes verbatim when no apostrophe is present, otherwise
every contained apostrophe is doubled. -/
def writeSQLString (s : String) : String :=
  "'" ++ (if sqlHasQuote s.data then String.mk (sqlEscapeChars s.data) else s) ++ "'"

/-- `child[i]` of a `std::string`: reading at or past the end yields the
terminating NUL character (which compares unequal to `'$'`, `'.'` and
`'['`). -/
def strAt (cs : List Char) (i : Nat) : Char := cs.getD i (Char.ofNat 0)

/-- The strip step of `appendPaths`: drop a leading `$.` (two characters) or
`$` (one character) off the child (`substr` is `List.drop`). -/
def stripChild (child : List Char) : List Char :=
  if strAt child 0 = '$' then
    if strAt child 1 = '.' then child.drop 2 else child.drop 1
  else child

/-- Character-level body of `appendPaths`: strip the child, then join with
`.` unless the parent is empty or the stripped child starts with `[`. -/
def appendPathsL (parent child : List Char) : List Char :=
  if parent = [] then stripChild child
  else if strAt (stripChild child) 0 = '[' then parent ++ stripChild child
  else parent ++ '.' :: stripChild child

/-- `appendPaths(parent, child)`: combine a parent property path with a child
segment. -/
def appendPaths (parent child : String) : String :=
  String.mk (appendPathsL parent.data child.data)

/-- Modelled from the spec (Fleece's `Value::asString` is not under `src/`):
the placeholder branch of `writeLiteral` accepts exactly a non-empty string
(spec §4.2: "if a non-empty string *s*, emit `:_<s>`; otherwise fail";
§7: "Placeholder array whose single element is neither an integer nor a
non-empty string" is an error). -/
def placeholderString (v : Value) : Option String :=
  match v with
  | .vstr s => if s = "" then none else some s
  | _ => none

/-- `QueryParser::writeLiteral`: render a Fleece value as a SQL literal (or a
`:_name` placeholder for a single-element array), returning the text to
append to `_sql`. -/
def writeLiteral (literal : Value) : Except QPError String :=
  match literal with
  | .vint n => .ok (toString n)
  | .vbool b => .ok (if b then "1" else "0")
  | .vstr s => .ok (writeSQLString s)
  | .varr elems =>
      match elems with
      | [ident] =>
          match ident with
          | .vint n => .ok (":_" ++ toString n)
          | _ =>
              match placeholderString ident with
              | some str => .ok (":_" ++ str)
              | none => .error .invalidQuery
      | _ => .error .invalidQuery
  | _ => .error .invalidQuery

/-- The literal list of `$in`/`$nin`, separated by `", "` (the `Delimiter`
skips the word before the first element). -/
def writeLiteralList : List Value → Bool → Except QPError String
  | [], _ => .ok ""
  | v :: rest, first =>
      match writeLiteral v with
      | .error e => .error e
      | .ok lit =>
          match writeLiteralList rest false with
          | .error e => .error e
          | .ok restText => .ok ((if first then "" else ", ") ++ lit ++ restText)

/-- The trailing literal arguments of `$all`/`$any`: `", "` before every
element. -/
def writeLiteralArgs : List Value → Except QPError String
  | [] => .ok ""
  | v :: rest =>
      match writeLiteral v with
      | .error e => .error e
      | .ok lit =>
          match writeLiteralArgs rest with
          | .error e => .error e
          | .ok restText => .ok (", " ++ lit ++ restText)

/-- `writePropertyGetterLeftOpen(fn, property)`: everything except the
closing parenthesis. -/
def writePropertyGetterLeftOpen (fn property jsonCol propertyPath : String) : String :=
  fn ++ "(" ++ jsonCol ++ ", " ++ writeSQLString (appendPaths propertyPath property)

/-- `writePropertyGetter(fn, property)`: the reserved synthetic properties
`_id`/`_sequence` map to the `key`/`sequence` columns (only under
`fl_value`); every other property becomes a helper-function call. -/
def writePropertyGetter (fn property jsonCol propertyPath : String) : Except QPError String :=
  if property = "_id" then
    if fn = "fl_value" then .ok "key" else .error .invalidQuery
  else if property = "_sequence" then
    if fn = "fl_value" then .ok "sequence" else .error .invalidQuery
  else
    .ok (writePropertyGetterLeftOpen fn property jsonCol propertyPath ++ ")")

/-- Modelled from the spec/Fleece API (Fleece source not under `src/`):
`Value::asBool`, used by `$exists`: booleans are themselves, numbers compare
against zero, null is false, everything else is true. -/
def valueAsBool : Value → Bool
  | .vnull => false
  | .vbool b => b
  | .vint n => n != 0
  | _ => true

/-- The `$type` code lookup: index of the value (as a string) in
`kTypeNames`; a non-string value's `asString` is the null slice, which
matches no name. -/
def typeCodeOf (v : Value) : Option Nat :=
  match v with
  | .vstr t => kTypeNames.findIdx? (fun n => n == t)
  | _ => none

/-- Result of `findRelation`: either the null return (a non-special
dictionary value, i.e. a sub-property predicate) or a table entry together
with the peeled operand value. -/
inductive RelFound where
  | subProperty
  | found (e : RelationalEntry) (v : Value)
deriving Repr

/-- `findRelation(value)`: peel a special key off a dictionary value (taking
its payload as the new value), default the operator to `$eq` otherwise, and
look the operator up in `kRelationals`; an unknown operator fails. -/
def findRelation (value : Value) : Except QPError RelFound :=
  match getSpecialKeyV value with
  | some (op, payload) =>
      match kRelationals.find? (fun e => e.op == op) with
      | some e => .ok (.found e payload)
      | none => .error .invalidQuery
  | none =>
      match value with
      | .vdict _ => .ok .subProperty
      | _ =>
          match kRelationals.find? (fun e => e.op == "$eq") with
          | some e => .ok (.found e value)
          | none => .error .invalidQuery

/-- `QueryParser::parseElemMatchTerm(table, value)`: the `$elemMatch` inner
dispatch, emitting column references on the `fl_each` virtual table.  The
nested sub-property, `$all`, `$any` and `$elemMatch` cases are unimplemented
(`fail(); //TODO`), and `$match` (type 8) reaches the
`Assert(false, "invalid type in kRelationals")` default branch. -/
def parseElemMatchTerm (table : String) (value : Value) : Except QPError String :=
  match findRelation value with
  | .error e => .error e
  | .ok .subProperty => .error .invalidQuery
  | .ok (.found rel v) =>
      match rel.rtype with
      | 0 =>
          match writeLiteral v with
          | .error e => .error e
          | .ok lit => .ok (table ++ ".value" ++ rel.sqlOp.getD "" ++ lit)
      | 1 =>
          match typeCodeOf v with
          | some code => .ok (table ++ ".type" ++ "=" ++ toString code)
          | none => .error .invalidQuery
      | 2 =>
          .ok ((if valueAsBool v then "" else "NOT ") ++ "(" ++ table ++ ".type >= 0)")
      | 3 =>
          match v with
          | .varr elems =>
              match writeLiteralList elems true with
              | .error e => .error e
              | .ok lits => .ok (table ++ ".value" ++ rel.sqlOp.getD "" ++ "(" ++ lits ++ ")")
          | _ => .error .invalidQuery
      | 4 =>
          match writeLiteral v with
          | .error e => .error e
          | .ok lit => .ok ("count(" ++ table ++ ".*)" ++ "=" ++ lit)
      | 5 => .error .invalidQuery
      | 6 => .error .invalidQuery
      | 7 => .error .invalidQuery
      | _ => .error .assertionFailed

/-- `QueryParser::parseElemMatch(property, match)`: the row-exploded
`EXISTS (SELECT 1 FROM fl_each(…) WHERE …)` wrapper. -/
def parseElemMatch (property : String) (matchv : Value) (jsonCol propertyPath : String) :
    Except QPError String :=
  match writePropertyGetter "fl_each" property jsonCol propertyPath with
  | .error e => .error e
  | .ok getter =>
      match parseElemMatchTerm "fl_each" matchv with
      | .error e => .error e
      | .ok inner => .ok ("EXISTS (SELECT 1 FROM " ++ getter ++ " WHERE " ++ inner ++ ")")

/-- `QueryParser::FTSPropertyIndex`: 1-based index of the first occurrence
of the property path in `_ftsProperties`, 0 when absent (`std::find`). -/
def FTSPropertyIndex (props : List String) (propertyPath : String) : Nat :=
  match props with
  | [] => 0
  | p :: rest =>
      if p = propertyPath then 1
      else if FTSPropertyIndex rest propertyPath = 0 then 0
      else FTSPropertyIndex rest propertyPath + 1

/-- The match expression emitted by `parseFTSMatch` for the `FTSk` alias:
`(FTSk.text MATCH <literal> AND FTSk.rowid = <table>.sequence)`. -/
def ftsMatchText (k : Nat) (lit tableName : String) : String :=
  "(FTS" ++ toString k ++ ".text MATCH " ++ lit ++ " AND FTS" ++ toString k ++
    ".rowid = " ++ tableName ++ ".sequence)"

/-- `QueryParser::parseFTSMatch(property, match)`: record the full property
path in `_ftsProperties` on first occurrence (its index is then the new
length), reuse the existing 1-based index otherwise, and emit the
implicit-join match expression against the `FTSk` alias. -/
def parseFTSMatch (property : String) (matchv : Value) (s : QPState) :
    Except QPError QPState :=
  match writeLiteral matchv with
  | .error e => .error e
  | .ok lit =>
      if FTSPropertyIndex s.ftsProperties (appendPaths s.propertyPath property) = 0 then
        .ok { emit (ftsMatchText (s.ftsProperties.length + 1) lit s.tableName) s with
              ftsProperties := s.ftsProperties ++ [appendPaths s.propertyPath property] }
      else
        .ok (emit (ftsMatchText
              (FTSPropertyIndex s.ftsProperties (appendPaths s.propertyPath property))
              lit s.tableName) s)

/-- The category dispatch of `parseTerm` on a resolved `kRelationals` entry
(the `switch (rel->type)`); every case here is non-recursive.  The `default`
branch is the `Assert(false, "invalid type in kRelationals")`. -/
def parseTermDispatch (rel : RelationalEntry) (key : String) (v : Value) (s : QPState) :
    Except QPError QPState :=
  match rel.rtype with
  | 0 =>
      match writePropertyGetter "fl_value" key s.jsonColumnName s.propertyPath with
      | .error e => .error e
      | .ok getter =>
          match writeLiteral v with
          | .error e => .error e
          | .ok lit => .ok (emit (getter ++ rel.sqlOp.getD "" ++ lit) s)
  | 1 =>
      match writePropertyGetter "fl_type" key s.jsonColumnName s.propertyPath with
      | .error e => .error e
      | .ok getter =>
          match typeCodeOf v with
          | some code => .ok (emit (getter ++ "=" ++ toString code) s)
          | none => .error .invalidQuery
  | 2 =>
      match writePropertyGetter "fl_exists" key s.jsonColumnName s.propertyPath with
      | .error e => .error e
      | .ok getter => .ok (emit ((if valueAsBool v then "" else "NOT ") ++ getter) s)
  | 3 =>
      match writePropertyGetter "fl_value" key s.jsonColumnName s.propertyPath with
      | .error e => .error e
      | .ok getter =>
          match v with
          | .varr elems =>
              match writeLiteralList elems true with
              | .error e => .error e
              | .ok lits => .ok (emit (getter ++ rel.sqlOp.getD "" ++ "(" ++ lits ++ ")") s)
          | _ => .error .invalidQuery
  | 4 =>
      match writePropertyGetter "fl_count" key s.jsonColumnName s.propertyPath with
      | .error e => .error e
      | .ok getter =>
          match writeLiteral v with
          | .error e => .error e
          | .ok lit => .ok (emit (getter ++ "=" ++ lit) s)
  | 5 =>
      match v with
      | .varr elems =>
          match writeLiteralArgs elems with
          | .error e => .error e
          | .ok args =>
              .ok (emit (writePropertyGetterLeftOpen "fl_contains" key s.jsonColumnName
                           s.propertyPath ++ ", 1" ++ args ++ ")") s)
      | _ => .error .invalidQuery
  | 6 =>
      match v with
      | .varr elems =>
          match writeLiteralArgs elems with
          | .error e => .error e
          | .ok args =>
              .ok (emit (writePropertyGetterLeftOpen "fl_contains" key s.jsonColumnName
                           s.propertyPath ++ ", 0" ++ args ++ ")") s)
      | _ => .error .invalidQuery
  | 7 =>
      match parseElemMatch key v s.jsonColumnName s.propertyPath with
      | .error e => .error e
      | .ok text => .ok (emit text s)
  | 8 => parseFTSMatch key v s
  | _ => .error .assertionFailed

/-- One pending recursive call of the predicate parser; each constructor
corresponds to one mutually recursive function of the source (the two list
constructors are the `Delimiter` loops of `parsePredicate` and
`writeBooleanExpr`). -/
inductive Call where
  | predicate (q : Value)
  | termList (entries : List (String × Value)) (first : Bool)
  | term (key : String) (value : Value)
  | subProperty (property : String) (value : Value)
  | boolExpr (terms : Value) (op : String)
  | boolList (l : List Value) (op : String) (first : Bool)
deriving Repr

/-- Sequence two steps of the fuelled interpreter: `none` is fuel
exhaustion, errors propagate (the C++ exception), and a successful state is
fed to the continuation. -/
def andThen (r : Option (Except QPError QPState))
    (f : QPState → Option (Except QPError QPState)) : Option (Except QPError QPState) :=
  match r with
  | none => none
  | some (.error e) => some (.error e)
  | some (.ok s) => f s

/-- The fuelled mutual-recursion pack of the predicate parser.  Each `Call`
case is the body of the corresponding source function:
`parsePredicate` (with its implicit-AND `termList` loop),
`parseTerm`, `parseSubPropertyTerm`, and `writeBooleanExpr` (with its
`boolList` loop).  `none` means the fuel ran out; `run_ne_none` below shows
that never happens for the fuel chosen by `runPredicate`. -/
def run : Nat → Call → QPState → Option (Except QPError QPState)
  | 0, _, _ => none
  | fuel + 1, c, s =>
    match c with
    | .predicate q =>
        match q with
        | .vdict entries =>
            match getSpecialKey entries with
            | none => run fuel (.termList entries true) s
            | some (key, val) =>
                if key = "$and" then run fuel (.boolExpr val " AND ") s
                else if key = "$or" then run fuel (.boolExpr val " OR ") s
                else if key = "$nor" then
                  andThen (run fuel (.boolExpr val " OR ") (emit "NOT (" s))
                    (fun s' => some (.ok (emit ")" s')))
                else if key = "$not" then
                  match val with
                  | .varr [t] =>
                      andThen (run fuel (.predicate t) (emit "NOT (" s))
                        (fun s' => some (.ok (emit ")" s')))
                  | .varr _ => some (.error .invalidQuery)
                  | _ => some (.error .invalidQuery)
                else some (.ok s)
        | _ => some (.error .invalidQuery)
    | .termList entries first =>
        match entries with
        | [] => some (.ok s)
        | (k, v) :: rest =>
            andThen (run fuel (.term k v) (if first then s else emit " AND " s))
              (fun s' => run fuel (.termList rest false) s')
    | .term key value =>
        match findRelation value with
        | .error e => some (.error e)
        | .ok .subProperty => run fuel (.subProperty key value) s
        | .ok (.found rel v) => some (parseTermDispatch rel key v s)
    | .subProperty property value =>
        andThen (run fuel (.predicate value)
            (emit "(" { s with propertyPath := appendPaths s.propertyPath property }))
          (fun s2 => some (.ok (emit ")" { s2 with propertyPath := s.propertyPath })))
    | .boolExpr terms op =>
        match terms with
        | .varr l => run fuel (.boolList l op true) s
        | _ => some (.error .invalidQuery)
    | .boolList l op first =>
        match l with
        | [] => some (.ok s)
        | t :: rest =>
            andThen (run fuel (.predicate t) (if first then s else emit op s))
              (fun s' => run fuel (.boolList rest op false) s')

mutual

/-- Structural size of a value, the basis of the fuel bound for `run`. -/
def msize : Value → Nat
  | .vnull => 1
  | .vbool _ => 1
  | .vint _ => 1
  | .vstr _ => 1
  | .varr l => 1 + msizeList l
  | .vdict e => 1 + msizeEntries e

def msizeList : List Value → Nat
  | [] => 1
  | v :: rest => 1 + msize v + msizeList rest

def msizeEntries : List (String × Value) → Nat
  | [] => 1
  | (_, v) :: rest => 1 + msize v + msizeEntries rest

end

/-- Fuel bound for each pending call; every recursive call of `run` strictly
decreases this measure. -/
def callMeasure : Call → Nat
  | .predicate q => 3 * msize q
  | .termList entries _ => 3 * msizeEntries entries + 1
  | .term _ v => 3 * msize v + 2
  | .subProperty _ v => 3 * msize v + 1
  | .boolExpr terms _ => 3 * msize terms + 1
  | .boolList l _ _ => 3 * msizeList l + 1

theorem msize_pos (v : Value) : 1 ≤ msize v := by
  cases v <;> simp [msize]

theorem msizeList_pos (l : List Value) : 1 ≤ msizeList l := by
  cases l with
  | nil => simp [msizeList]
  | cons hd tl => simp [msizeList]; omega

theorem msizeEntries_pos (e : List (String × Value)) : 1 ≤ msizeEntries e := by
  cases e with
  | nil => simp [msizeEntries]
  | cons hd tl => obtain ⟨k, v⟩ := hd; simp [msizeEntries]; omega

theorem getSpecialKey_msize {entries : List (String × Value)} {k : String} {v : Value}
    (h : getSpecialKey entries = some (k, v)) : msize v + 2 ≤ msizeEntries entries := by
  induction entries with
  | nil => simp [getSpecialKey] at h
  | cons hd tl ih =>
      obtain ⟨k', v'⟩ := hd
      by_cases hs : isSpecialKey k' = true
      · simp [getSpecialKey, hs] at h
        obtain ⟨hk, hv⟩ := h
        subst hv
        have := msizeEntries_pos tl
        simp [msizeEntries]
        omega
      · simp [getSpecialKey, hs] at h
        have := ih h
        simp [msizeEntries]
        have := msize_pos v'
        omega

theorem andThen_ne_none {r : Option (Except QPError QPState)}
    {f : QPState → Option (Except QPError QPState)}
    (h₁ : r ≠ none) (h₂ : ∀ s', r = some (.ok s') → f s' ≠ none) :
    andThen r f ≠ none := by
  match r with
  | none => exact absurd rfl h₁
  | some (.error e) => simp [andThen]
  | some (.ok s') => simpa [andThen] using h₂ s' rfl

/-- With fuel exceeding the call measure, the interpreter never runs out of
fuel: the parser is total. -/
theorem run_ne_none : ∀ (fuel : Nat) (c : Call) (s : QPState),
    callMeasure c < fuel → run fuel c s ≠ none := by
  intro fuel
  induction fuel with
  | zero => intro c s h; omega
  | succ n ih =>
    intro c s h
    match c with
    | .predicate q =>
        match q with
        | .vnull | .vbool _ | .vint _ | .vstr _ | .varr _ => simp [run]
        | .vdict entries =>
            have hsz : 3 * msizeEntries entries + 3 ≤ n + 1 := by
              simp [callMeasure, msize] at h; omega
            match hk : getSpecialKey entries with
            | none =>
                simp only [run, hk]
                exact ih _ _ (by simp [callMeasure]; omega)
            | some (key, val) =>
                have hb := getSpecialKey_msize hk
                simp only [run, hk]
                by_cases h1 : key = "$and"
                · simp only [h1, if_pos rfl]
                  exact ih _ _ (by simp [callMeasure]; omega)
                · rw [if_neg h1]
                  by_cases h2 : key = "$or"
                  · rw [if_pos h2]
                    exact ih _ _ (by simp [callMeasure]; omega)
                  · rw [if_neg h2]
                    by_cases h3 : key = "$nor"
                    · rw [if_pos h3]
                      exact andThen_ne_none (ih _ _ (by simp [callMeasure]; omega))
                        (fun s' _ => by simp)
                    · rw [if_neg h3]
                      by_cases h4 : key = "$not"
                      · rw [if_pos h4]
                        match val with
                        | .vnull | .vbool _ | .vint _ | .vstr _ | .vdict _ => simp
                        | .varr l =>
                            match l with
                            | [] => simp
                            | [t] =>
                                have ht : msize t + 3 ≤ msize (Value.varr [t]) := by
                                  simp [msize, msizeList]; omega
                                exact andThen_ne_none
                                  (ih _ _ (by simp [callMeasure]; omega))
                                  (fun s' _ => by simp)
                            | _ :: _ :: _ => simp
                      · rw [if_neg h4]; simp
    | .termList entries first =>
        match entries with
        | [] => simp [run]
        | (k, v) :: rest =>
            have hsz : 3 * (1 + msize v + msizeEntries rest) + 1 ≤ n + 1 := by
              simp [callMeasure, msizeEntries] at h; omega
            simp only [run]
            exact andThen_ne_none (ih _ _ (by simp [callMeasure]; omega))
              (fun s' _ => ih _ _ (by simp [callMeasure]; omega))
    | .term key value =>
        match hr : findRelation value with
        | .error e => simp [run, hr]
        | .ok .subProperty =>
            simp only [run, hr]
            exact ih _ _ (by simp [callMeasure] at h ⊢; omega)
        | .ok (.found rel v) => simp [run, hr]
    | .subProperty property value =>
        simp only [run]
        exact andThen_ne_none (ih _ _ (by simp [callMeasure] at h ⊢; omega))
          (fun s' _ => by simp)
    | .boolExpr terms op =>
        match terms with
        | .vnull | .vbool _ | .vint _ | .vstr _ | .vdict _ => simp [run]
        | .varr l =>
            simp only [run]
            exact ih _ _ (by simp [callMeasure, msize] at h ⊢; omega)
    | .boolList l op first =>
        match l with
        | [] => simp [run]
        | t :: rest =>
            have hsz : 3 * (1 + msize t + msizeList rest) + 1 + 1 ≤ n + 1 := by
              simp [callMeasure, msizeList] at h; omega
            simp only [run]
            exact andThen_ne_none (ih _ _ (by simp [callMeasure]; omega))
              (fun s' _ => ih _ _ (by simp [callMeasure]; omega))

/-- Fuel is irrelevant once the interpreter produces a result: increasing
the fuel cannot change it. -/
theorem run_mono : ∀ (f₁ : Nat) (c : Call) (s : QPState) (r : Except QPError QPState)
    (f₂ : Nat), run f₁ c s = some r → f₁ ≤ f₂ → run f₂ c s = some r := by
  intro f₁
  induction f₁ with
  | zero => intro c s r f₂ h _; simp [run] at h
  | succ n ih =>
    intro c s r f₂ h hle
    match f₂ with
    | 0 => omega
    | m + 1 =>
      have hnm : n ≤ m := by omega
      match c with
      | .predicate q =>
          match q with
          | .vnull | .vbool _ | .vint _ | .vstr _ | .varr _ => simpa [run] using h
          | .vdict entries =>
              match hk : getSpecialKey entries with
              | none =>
                  simp only [run, hk] at h ⊢
                  exact ih _ _ _ _ h hnm
              | some (key, val) =>
                  simp only [run, hk] at h ⊢
                  by_cases h1 : key = "$and"
                  · rw [if_pos h1] at h ⊢; exact ih _ _ _ _ h hnm
                  · rw [if_neg h1] at h ⊢
                    by_cases h2 : key = "$or"
                    · rw [if_pos h2] at h ⊢; exact ih _ _ _ _ h hnm
                    · rw [if_neg h2] at h ⊢
                      by_cases h3 : key = "$nor"
                      · rw [if_pos h3] at h ⊢
                        cases hr : run n (.boolExpr val " OR ") (emit "NOT (" s) with
                        | none => rw [hr] at h; simp [andThen] at h
                        | some r' =>
                            rw [hr] at h
                            rw [ih _ _ _ _ hr hnm]
                            exact h
                      · rw [if_neg h3] at h ⊢
                        by_cases h4 : key = "$not"
                        · rw [if_pos h4] at h ⊢
                          match val with
                          | .vnull | .vbool _ | .vint _ | .vstr _ | .vdict _ => exact h
                          | .varr [] => exact h
                          | .varr (_ :: _ :: _) => exact h
                          | .varr [t] =>
                              have h' : andThen (run n (.predicate t) (emit "NOT (" s))
                                  (fun s' => some (.ok (emit ")" s'))) = some r := h
                              show andThen (run m (.predicate t) (emit "NOT (" s))
                                  (fun s' => some (.ok (emit ")" s'))) = some r
                              cases hr : run n (.predicate t) (emit "NOT (" s) with
                              | none => rw [hr] at h'; simp [andThen] at h'
                              | some r' =>
                                  rw [hr] at h'
                                  rw [ih _ _ _ _ hr hnm]
                                  exact h'
                        · rw [if_neg h4] at h ⊢; exact h
      | .termList entries first =>
          match entries with
          | [] => simpa [run] using h
          | (k, v) :: rest =>
              simp only [run] at h ⊢
              cases hr : run n (.term k v) (if first then s else emit " AND " s) with
              | none => rw [hr] at h; simp [andThen] at h
              | some r' =>
                  rw [hr] at h
                  rw [ih _ _ _ _ hr hnm]
                  cases r' with
                  | error e => exact h
                  | ok s' =>
                      simp only [andThen] at h ⊢
                      exact ih _ _ _ _ h hnm
      | .term key value =>
          match hr : findRelation value with
          | .error e => simp only [run, hr] at h ⊢; exact h
          | .ok .subProperty =>
              simp only [run, hr] at h ⊢
              exact ih _ _ _ _ h hnm
          | .ok (.found rel v) => simp only [run, hr] at h ⊢; exact h
      | .subProperty property value =>
          simp only [run] at h ⊢
          cases hr : run n (.predicate value)
              (emit "(" { s with propertyPath := appendPaths s.propertyPath property }) with
          | none => rw [hr] at h; simp [andThen] at h
          | some r' =>
              rw [hr] at h
              rw [ih _ _ _ _ hr hnm]
              exact h
      | .boolExpr terms op =>
          match terms with
          | .vnull | .vbool _ | .vint _ | .vstr _ | .vdict _ => simpa [run] using h
          | .varr l =>
              simp only [run] at h ⊢
              exact ih _ _ _ _ h hnm
      | .boolList l op first =>
          match l with
          | [] => simpa [run] using h
          | t :: rest =>
              simp only [run] at h ⊢
              cases hr : run n (.predicate t) (if first then s else emit op s) with
              | none => rw [hr] at h; simp [andThen] at h
              | some r' =>
                  rw [hr] at h
                  rw [ih _ _ _ _ hr hnm]
                  cases r' with
                  | error e => exact h
                  | ok s' =>
                      simp only [andThen] at h ⊢
                      exact ih _ _ _ _ h hnm

/-- Relation between a state and any state the predicate parser can evolve
it into: the property-path prefix is unchanged and the FTS property list has
only been appended to. -/
def StepOK (s s' : QPState) : Prop :=
  s'.propertyPath = s.propertyPath ∧ ∃ ext, s'.ftsProperties = s.ftsProperties ++ ext

theorem stepOK_refl (s : QPState) : StepOK s s :=
  ⟨rfl, [], by simp⟩

theorem stepOK_emit (t : String) (s : QPState) : StepOK s (emit t s) :=
  ⟨rfl, [], by simp [emit]⟩

theorem stepOK_trans {s₁ s₂ s₃ : QPState} (h₁ : StepOK s₁ s₂) (h₂ : StepOK s₂ s₃) :
    StepOK s₁ s₃ := by
  obtain ⟨hp₁, e₁, hf₁⟩ := h₁
  obtain ⟨hp₂, e₂, hf₂⟩ := h₂
  exact ⟨hp₂.trans hp₁, e₁ ++ e₂, by rw [hf₂, hf₁, List.append_assoc]⟩

theorem parseFTSMatch_stepOK {property : String} {matchv : Value} {s s' : QPState}
    (h : parseFTSMatch property matchv s = .ok s') : StepOK s s' := by
  unfold parseFTSMatch at h
  split at h
  · cases h
  · split at h
    · cases h
      exact ⟨by simp [emit], [appendPaths s.propertyPath property], by simp [emit]⟩
    · cases h
      exact stepOK_emit _ s

theorem ok_emit_stepOK {t : String} {s s' : QPState}
    (h : (Except.ok (emit t s) : Except QPError QPState) = .ok s') : StepOK s s' := by
  cases h
  exact stepOK_emit t s

theorem parseTermDispatch_stepOK {rel : RelationalEntry} {k : String} {v : Value}
    {s s' : QPState} (h : parseTermDispatch rel k v s = .ok s') : StepOK s s' := by
  unfold parseTermDispatch at h
  split at h
  all_goals try (repeat' split at h)
  all_goals first
    | exact ok_emit_stepOK h
    | exact parseFTSMatch_stepOK h
    | simp at h

/-- If the predicate parser finishes successfully, the property-path prefix
is exactly what it was on entry (every sub-property descent restores the
prefix saved on entry), and the FTS property list has only grown at its
end. -/
theorem run_stepOK : ∀ (fuel : Nat) (c : Call) (s s' : QPState),
    run fuel c s = some (.ok s') → StepOK s s' := by
  intro fuel
  induction fuel with
  | zero => intro c s s' h; simp [run] at h
  | succ n ih =>
    intro c s s' h
    match c with
    | .predicate q =>
        match q with
        | .vnull | .vbool _ | .vint _ | .vstr _ | .varr _ => simp [run] at h
        | .vdict entries =>
            match hk : getSpecialKey entries with
            | none =>
                simp only [run, hk] at h
                exact ih _ _ _ h
            | some (key, val) =>
                simp only [run, hk] at h
                by_cases h1 : key = "$and"
                · rw [if_pos h1] at h; exact ih _ _ _ h
                · rw [if_neg h1] at h
                  by_cases h2 : key = "$or"
                  · rw [if_pos h2] at h; exact ih _ _ _ h
                  · rw [if_neg h2] at h
                    by_cases h3 : key = "$nor"
                    · rw [if_pos h3] at h
                      cases hr : run n (.boolExpr val " OR ") (emit "NOT (" s) with
                      | none => rw [hr] at h; simp [andThen] at h
                      | some r' =>
                          rw [hr] at h
                          match r' with
                          | .error e => simp [andThen] at h
                          | .ok s₂ =>
                              simp only [andThen] at h
                              cases h
                              exact stepOK_trans (stepOK_trans (stepOK_emit _ s) (ih _ _ _ hr))
                                (stepOK_emit _ s₂)
                    · rw [if_neg h3] at h
                      by_cases h4 : key = "$not"
                      · rw [if_pos h4] at h
                        match val with
                        | .vnull | .vbool _ | .vint _ | .vstr _ | .vdict _ => simp at h
                        | .varr [] => simp at h
                        | .varr (_ :: _ :: _) => simp at h
                        | .varr [t] =>
                            have h' : andThen (run n (.predicate t) (emit "NOT (" s))
                                (fun s₂ => some (.ok (emit ")" s₂))) = some (.ok s') := h
                            cases hr : run n (.predicate t) (emit "NOT (" s) with
                            | none => rw [hr] at h'; simp [andThen] at h'
                            | some r' =>
                                rw [hr] at h'
                                match r' with
                                | .error e => simp [andThen] at h'
                                | .ok s₂ =>
                                    simp only [andThen] at h'
                                    cases h'
                                    exact stepOK_trans
                                      (stepOK_trans (stepOK_emit _ s) (ih _ _ _ hr))
                                      (stepOK_emit _ s₂)
                      · rw [if_neg h4] at h
                        cases h
                        exact stepOK_refl s
    | .termList entries first =>
        match entries with
        | [] =>
            simp only [run] at h
            cases h
            exact stepOK_refl s
        | (k, v) :: rest =>
            simp only [run] at h
            cases hr : run n (.term k v) (if first then s else emit " AND " s) with
            | none => rw [hr] at h; simp [andThen] at h
            | some r' =>
                rw [hr] at h
                match r' with
                | .error e => simp [andThen] at h
                | .ok s₁ =>
                    simp only [andThen] at h
                    have hstep : StepOK s (if first then s else emit " AND " s) := by
                      by_cases hfi : first = true
                      · rw [if_pos hfi]; exact stepOK_refl s
                      · rw [if_neg hfi]; exact stepOK_emit _ s
                    exact stepOK_trans (stepOK_trans hstep (ih _ _ _ hr)) (ih _ _ _ h)
    | .term key value =>
        match hrel : findRelation value with
        | .error e => simp [run, hrel] at h
        | .ok .subProperty =>
            simp only [run, hrel] at h
            exact ih _ _ _ h
        | .ok (.found rel v) =>
            simp only [run, hrel] at h
            cases hd : parseTermDispatch rel key v s with
            | error e => rw [hd] at h; simp at h
            | ok s₁ =>
                rw [hd] at h
                cases h
                exact parseTermDispatch_stepOK hd
    | .subProperty property value =>
        simp only [run] at h
        cases hr : run n (.predicate value)
            (emit "(" { s with propertyPath := appendPaths s.propertyPath property }) with
        | none => rw [hr] at h; simp [andThen] at h
        | some r' =>
            rw [hr] at h
            match r' with
            | .error e => simp [andThen] at h
            | .ok s₂ =>
                simp only [andThen] at h
                cases h
                obtain ⟨_, ext, hf⟩ := ih _ _ _ hr
                exact ⟨rfl, ext, by simpa [emit] using hf⟩
    | .boolExpr terms op =>
        match terms with
        | .vnull | .vbool _ | .vint _ | .vstr _ | .vdict _ => simp [run] at h
        | .varr l =>
            simp only [run] at h
            exact ih _ _ _ h
    | .boolList l op first =>
        match l with
        | [] =>
            simp only [run] at h
            cases h
            exact stepOK_refl s
        | t :: rest =>
            simp only [run] at h
            cases hr : run n (.predicate t) (if first then s else emit op s) with
            | none => rw [hr] at h; simp [andThen] at h
            | some r' =>
                rw [hr] at h
                match r' with
                | .error e => simp [andThen] at h
                | .ok s₁ =>
                    simp only [andThen] at h
                    have hstep : StepOK s (if first then s else emit op s) := by
                      by_cases hfi : first = true
                      · rw [if_pos hfi]; exact stepOK_refl s
                      · rw [if_neg hfi]; exact stepOK_emit _ s
                    exact stepOK_trans (stepOK_trans hstep (ih _ _ _ hr)) (ih _ _ _ h)

/-- Fuel sufficient for parsing the predicate `q` (strictly above the call
measure, so `run` cannot return `none`). -/
def predicateFuel (q : Value) : Nat := 3 * msize q + 1

theorem predicateFuel_ne_none (q : Value) (s : QPState) :
    run (predicateFuel q) (.predicate q) s ≠ none :=
  run_ne_none _ _ _ (by simp [callMeasure, predicateFuel])

/-- `QueryParser::parsePredicate` run to completion: the totalized top of
the fuelled interpreter (the fuel suffices by `predicateFuel_ne_none`). -/
def runPredicate (q : Value) (s : QPState) : Except QPError QPState :=
  match h : run (predicateFuel q) (.predicate q) s with
  | some r => r
  | none => absurd h (predicateFuel_ne_none q s)

/-- Any sufficient fuel computes `runPredicate`. -/
theorem runPredicate_of_run {f : Nat} {q : Value} {s : QPState} {r : Except QPError QPState}
    (h : run f (.predicate q) s = some r) : runPredicate q s = r := by
  unfold runPredicate
  split
  · next r' h' =>
      have h₁ := run_mono _ _ _ _ (max f (predicateFuel q)) h (Nat.le_max_left _ _)
      have h₂ := run_mono _ _ _ _ (max f (predicateFuel q)) h' (Nat.le_max_right _ _)
      rw [h₁] at h₂
      exact (Option.some.injEq _ _ ▸ h₂).symm
  · next h' => exact absurd h' (predicateFuel_ne_none q s)

/-- The sort-term property getter (static `QueryParser::propertyGetter`):
a throwaway compiler (table name `"XXX"`, empty property path) emits the
`fl_value` getter into its own buffer.  Modelled from the spec for the
column argument: the header with the call's default is not under `src/`;
spec §4.8 has the sort term emit the property getter over the compiler's
JSON column.  `writePropertyGetter` with `fl_value` never fails, so the
error branch below is dead. -/
def propertyGetter (property sqlColumn : String) : String :=
  match writePropertyGetter "fl_value" property sqlColumn "" with
  | .ok text => text
  | .error _ => ""

/-- `QueryParser::writeOrderBy(property)`: one sort term.  A non-string
yields the null slice, hence the size check fails; a property recorded for
FTS sorts by rank; otherwise an optional sign prefix is consumed and the
reserved names map to the `key`/`sequence` columns. -/
def writeOrderBy (property : Value) (s : QPState) : Except QPError QPState :=
  let str := match property with | .vstr t => t | _ => ""
  if str = "" then .error .invalidQuery
  else if 0 < FTSPropertyIndex s.ftsProperties str then
    .ok (emitSort ("rank(matchinfo(\"" ++ s.tableName ++ "::" ++ str ++ "\")) DESC") s)
  else
    let stripped :=
      match str.data with
      | '-' :: rest => (false, String.mk rest)
      | '+' :: rest => (true, String.mk rest)
      | _ => (true, str)
    let core :=
      if stripped.2 = "_id" then "key"
      else if stripped.2 = "_sequence" then "sequence"
      else propertyGetter stripped.2 s.jsonColumnName
    .ok (emitSort (core ++ (if stripped.1 then "" else " DESC")) s)

/-- The `", "`-delimited loop over a sort array in `parseSort`. -/
def sortList : List Value → Bool → QPState → Except QPError QPState
  | [], _, s => .ok s
  | v :: rest, first, s =>
      match writeOrderBy v (if first then s else emitSort ", " s) with
      | .error e => .error e
      | .ok s' => sortList rest false s'

/-- `QueryParser::parseSort(expr)`: absent sorts default to `key`; a string
is a single order term; an array is a comma-separated list; anything else
fails. -/
def parseSort (expr : Option Value) (s : QPState) : Except QPError QPState :=
  match expr with
  | none => .ok (emitSort "key" s)
  | some e =>
      match e with
      | .vstr _ => writeOrderBy e s
      | .varr items => sortList items true s
      | _ => .error .invalidQuery

/-- `QueryParser::parse(where, sort)`: parse the predicate when present,
then always parse the sort expression. -/
def parse (whereE sortE : Option Value) (s : QPState) : Except QPError QPState :=
  match whereE with
  | none => parseSort sortE s
  | some q =>
      match runPredicate q s with
      | .error e => .error e
      | .ok s' => parseSort sortE s'

/-- `QueryParser::whereClause()`. -/
def whereClause (s : QPState) : String := s.sql

/-- `QueryParser::orderByClause()`. -/
def orderByClause (s : QPState) : String := s.sortSQL

/-- The loop of `QueryParser::fromClause`, numbering FTS aliases from the
given counter. -/
def fromClauseAux (tableName : String) : List String → Nat → String
  | [], _ => ""
  | p :: rest, n =>
      ", \"" ++ tableName ++ "::" ++ p ++ "\" AS FTS" ++ toString (n + 1) ++
        fromClauseAux tableName rest (n + 1)

/-- `QueryParser::fromClause()`: the documents table followed by the FTS
virtual tables aliased `FTS1`, `FTS2`, … in insertion order. -/
def fromClause (s : QPState) : String :=
  s.tableName ++ fromClauseAux s.tableName s.ftsProperties 0

/-- `QueryParser::ftsTableNames()`: the quoted `"<table>::<path>"` names in
insertion order. -/
def ftsTableNames (s : QPState) : List String :=
  s.ftsProperties.map (fun p => "\"" ++ s.tableName ++ "::" ++ p ++ "\"")

/-- Evaluate `parse` from the result of a sufficient `run`: the predicate
succeeded. -/
theorem parse_of_run_ok {f : Nat} {q : Value} {s s₁ : QPState} {sortE : Option Value}
    (h : run f (.predicate q) s = some (.ok s₁)) :
    parse (some q) sortE s = parseSort sortE s₁ := by
  have hp : parse (some q) sortE s =
      (match runPredicate q s with
       | .error e' => .error e'
       | .ok s' => parseSort sortE s') := rfl
  rw [hp, runPredicate_of_run h]

/-- Evaluate `parse` from the result of a sufficient `run`: the predicate
failed. -/
theorem parse_of_run_error {f : Nat} {q : Value} {s : QPState} {e : QPError}
    {sortE : Option Value} (h : run f (.predicate q) s = some (.error e)) :
    parse (some q) sortE s = .error e := by
  have hp : parse (some q) sortE s =
      (match runPredicate q s with
       | .error e' => .error e'
       | .ok s' => parseSort sortE s') := rfl
  rw [hp, runPredicate_of_run h]

theorem sqlEscapeChars_of_no_quote :
    ∀ cs : List Char, sqlHasQuote cs = false → sqlEscapeChars cs = cs := by
  intro cs h
  induction cs with
  | nil => rfl
  | cons c rest ih =>
      by_cases hc : c = '\''
      · simp [sqlHasQuote, hc] at h
      · simp only [sqlHasQuote, if_neg hc] at h
        simp [sqlEscapeChars, if_neg hc, ih h]

theorem writeSQLString_eq (str : String) :
    writeSQLString str = "'" ++ String.mk (sqlEscapeChars str.data) ++ "'" := by
  unfold writeSQLString
  by_cases h : sqlHasQuote str.data = true
  · rw [if_pos h]
  · rw [if_neg h, sqlEscapeChars_of_no_quote _ (by simpa using h)]

/-- C1.  Every user-supplied string emitted as a SQL literal goes through
`writeSQLString`, which delimits it with apostrophes and doubles every
embedded apostrophe (the apostrophe-free fast path writes the bytes
verbatim, which agrees with the escaping loop); string literals in
`writeLiteral` and property paths in `writePropertyGetterLeftOpen` use it;
and the compiler built over table `kv_default` and column `body` turns
`{"name":"O'Brien"}` into `fl_value(body, 'name') = 'O''Brien'`. -/
theorem claim_C1_string_quoting :
    (∀ str : String, writeSQLString str = "'" ++ String.mk (sqlEscapeChars str.data) ++ "'")
    ∧ (∀ str : String, writeLiteral (.vstr str) = .ok (writeSQLString str))
    ∧ (∀ fn property jsonCol propertyPath : String,
        writePropertyGetterLeftOpen fn property jsonCol propertyPath =
          fn ++ "(" ++ jsonCol ++ ", " ++ writeSQLString (appendPaths propertyPath property))
    ∧ parse (some (.vdict [("name", .vstr "O'Brien")])) none (initState "kv_default" "body") =
        .ok { initState "kv_default" "body" with
              sql := "fl_value(body, 'name') = 'O''Brien'", sortSQL := "key" } := by
  refine ⟨writeSQLString_eq, fun str => rfl, fun fn property jsonCol propertyPath => rfl, ?_⟩
  have h : run 10 (.predicate (.vdict [("name", .vstr "O'Brien")]))
      (initState "kv_default" "body") =
      some (.ok { initState "kv_default" "body" with
                  sql := "fl_value(body, 'name') = 'O''Brien'" }) := rfl
  rw [parse_of_run_ok h]
  rfl

/-- C6.  At a literal position an array must have exactly one element: an
integer `n` becomes the placeholder `:_n`, a non-empty string `s` becomes
`:_s`, and every other shape — the empty string included (spec-modelled
null-slice check), any other element type, and any other length — raises the
invalid-query error. -/
theorem claim_C6_placeholder_literals :
    (∀ n : Int, writeLiteral (.varr [.vint n]) = .ok (":_" ++ toString n))
    ∧ (∀ str : String, str ≠ "" → writeLiteral (.varr [.vstr str]) = .ok (":_" ++ str))
    ∧ writeLiteral (.varr [.vstr ""]) = .error .invalidQuery
    ∧ (∀ v : Value, (∀ n : Int, v ≠ .vint n) → (∀ str : String, v ≠ .vstr str) →
        writeLiteral (.varr [v]) = .error .invalidQuery)
    ∧ (∀ l : List Value, l.length ≠ 1 → writeLiteral (.varr l) = .error .invalidQuery) := by
  refine ⟨fun n => rfl, ?_, rfl, ?_, ?_⟩
  · intro str hs
    simp [writeLiteral, placeholderString, hs]
  · intro v hint hstr
    match v with
    | .vint n => exact absurd rfl (hint n)
    | .vstr t => exact absurd rfl (hstr t)
    | .vnull => rfl
    | .vbool b => rfl
    | .varr l => rfl
    | .vdict e => rfl
  · intro l hl
    match l with
    | [] => rfl
    | [x] => simp at hl
    | x :: y :: rest => rfl

/-- C6 witness: the statements evaluated at concrete inputs. -/
theorem claim_C6_placeholder_literals_witness :
    writeLiteral (.varr [.vint 7]) = .ok ":_7"
    ∧ writeLiteral (.varr [.vstr "limit"]) = .ok ":_limit"
    ∧ writeLiteral (.varr [.vstr ""]) = .error .invalidQuery
    ∧ writeLiteral (.varr [.vbool true]) = .error .invalidQuery
    ∧ writeLiteral (.varr [.vint 1, .vint 2]) = .error .invalidQuery :=
  ⟨claim_C6_placeholder_literals.1 7,
   claim_C6_placeholder_literals.2.1 "limit" (by decide),
   claim_C6_placeholder_literals.2.2.1,
   claim_C6_placeholder_literals.2.2.2.1 (.vbool true) (fun n h => by cases h)
     (fun str h => by cases h),
   claim_C6_placeholder_literals.2.2.2.2 [.vint 1, .vint 2] (by decide)⟩

/-- C3 (code bug).  All grammar violations raise the single invalid-query
error, but the `$match` operator dispatched inside `$elemMatch` reaches the
`Assert(false, "invalid type in kRelationals")` default branch — a distinct
assertion-failure outcome, contradicting the assertion's own premise that
the branch is unreachable:
`{"a":{"$elemMatch":{"$match":"x"}}}` fails with the assertion error, not
the invalid-query error. -/
theorem claim_C3_elemmatch_match_assertion :
    parse (some (.vdict [("a", .vdict [("$elemMatch", .vdict [("$match", .vstr "x")])])]))
      none (initState "kv_default" "body") = .error .assertionFailed
    ∧ QPError.assertionFailed ≠ QPError.invalidQuery
    ∧ parseElemMatchTerm "fl_each" (.vdict [("$match", .vstr "x")]) =
        .error .assertionFailed := by
  refine ⟨?_, by decide, rfl⟩
  have h : run 10 (.predicate
        (.vdict [("a", .vdict [("$elemMatch", .vdict [("$match", .vstr "x")])])]))
      (initState "kv_default" "body") = some (.error .assertionFailed) := rfl
  exact parse_of_run_error h

/-- C5.  End-to-end FTS scenario over table `kv_default` and column `body`:
`where = {"body":{"$match":"quick brown"}}` with `sort = ["-date","body"]`
produces the claimed WHERE, FROM and ORDER BY texts. -/
theorem claim_C5_fts_end_to_end :
    parse (some (.vdict [("body", .vdict [("$match", .vstr "quick brown")])]))
        (some (.varr [.vstr "-date", .vstr "body"])) (initState "kv_default" "body") =
      .ok { initState "kv_default" "body" with
            sql := "(FTS1.text MATCH 'quick brown' AND FTS1.rowid = kv_default.sequence)",
            sortSQL := "fl_value(body, 'date') DESC, rank(matchinfo(\"kv_default::body\")) DESC",
            ftsProperties := ["body"] }
    ∧ fromClause { initState "kv_default" "body" with
            sql := "(FTS1.text MATCH 'quick brown' AND FTS1.rowid = kv_default.sequence)",
            sortSQL := "fl_value(body, 'date') DESC, rank(matchinfo(\"kv_default::body\")) DESC",
            ftsProperties := ["body"] } = "kv_default, \"kv_default::body\" AS FTS1" := by
  refine ⟨?_, rfl⟩
  have h : run 10 (.predicate (.vdict [("body", .vdict [("$match", .vstr "quick brown")])]))
      (initState "kv_default" "body") =
      some (.ok { initState "kv_default" "body" with
          sql := "(FTS1.text MATCH 'quick brown' AND FTS1.rowid = kv_default.sequence)",
          ftsProperties := ["body"] }) := rfl
  rw [parse_of_run_ok h]
  rfl

/-- C10.  Sub-predicates of `$and`/`$or`/`$nor` are emitted without
parentheses of their own: the multi-key object inside `$or` contributes its
AND-joined terms at the same level as the OR, `$and` joins its
sub-predicates bare, and `$nor`'s parentheses come only from the `NOT (…)`
wrapper. -/
theorem claim_C10_boolean_flattening :
    parse (some (.vdict [("$or", .varr
        [.vdict [("a", .vint 1), ("b", .vint 2)], .vdict [("c", .vint 3)]])])) none
        (initState "kv_default" "body") =
      .ok { initState "kv_default" "body" with
        sql := "fl_value(body, 'a') = 1 AND fl_value(body, 'b') = 2 OR fl_value(body, 'c') = 3",
        sortSQL := "key" }
    ∧ parse (some (.vdict [("$and", .varr
        [.vdict [("a", .vint 1)], .vdict [("b", .vint 2)]])])) none
        (initState "kv_default" "body") =
      .ok { initState "kv_default" "body" with
        sql := "fl_value(body, 'a') = 1 AND fl_value(body, 'b') = 2",
        sortSQL := "key" }
    ∧ parse (some (.vdict [("$nor", .varr
        [.vdict [("a", .vint 1), ("b", .vint 2)]])])) none
        (initState "kv_default" "body") =
      .ok { initState "kv_default" "body" with
        sql := "NOT (fl_value(body, 'a') = 1 AND fl_value(body, 'b') = 2)",
        sortSQL := "key" } := by
  refine ⟨?_, ?_, ?_⟩
  · have h : run 10 (.predicate (.vdict [("$or", .varr
        [.vdict [("a", .vint 1), ("b", .vint 2)], .vdict [("c", .vint 3)]])]))
        (initState "kv_default" "body") =
        some (.ok { initState "kv_default" "body" with
          sql := "fl_value(body, 'a') = 1 AND fl_value(body, 'b') = 2 OR fl_value(body, 'c') = 3" }) := rfl
    rw [parse_of_run_ok h]
    rfl
  · have h : run 10 (.predicate (.vdict [("$and", .varr
        [.vdict [("a", .vint 1)], .vdict [("b", .vint 2)]])]))
        (initState "kv_default" "body") =
        some (.ok { initState "kv_default" "body" with
          sql := "fl_value(body, 'a') = 1 AND fl_value(body, 'b') = 2" }) := rfl
    rw [parse_of_run_ok h]
    rfl
  · have h : run 10 (.predicate (.vdict [("$nor", .varr
        [.vdict [("a", .vint 1), ("b", .vint 2)]])]))
        (initState "kv_default" "body") =
        some (.ok { initState "kv_default" "body" with
          sql := "NOT (fl_value(body, 'a') = 1 AND fl_value(body, 'b') = 2)" }) := rfl
    rw [parse_of_run_ok h]
    rfl

theorem runPredicate_spec (q : Value) (s : QPState) :
    run (predicateFuel q) (.predicate q) s = some (runPredicate q s) := by
  unfold runPredicate
  split
  · next r h => exact h
  · next h => exact absurd h (predicateFuel_ne_none q s)

theorem andThen_ok_id (r : Option (Except QPError QPState)) :
    andThen r (fun s' => some (.ok s')) = r := by
  match r with
  | none => rfl
  | some (.error e) => rfl
  | some (.ok s₁) => rfl

theorem run_and_wrap (p : Value) (s : QPState) (m : Nat) :
    run (m + 4) (.predicate (.vdict [("$and", .varr [p])])) s =
      run (m + 1) (.predicate p) s := by
  have h1 : run (m + 4) (.predicate (.vdict [("$and", .varr [p])])) s
      = andThen (run (m + 1) (.predicate p) s)
          (fun s' => run (m + 1) (.boolList [] " AND " false) s') := rfl
  have h2 : (fun s' : QPState => run (m + 1) (.boolList [] " AND " false) s')
      = (fun s' : QPState => some (.ok s')) := funext (fun s' => rfl)
  rw [h1, h2, andThen_ok_id]

/-- C9.  Implicit-AND idempotence: compiling the one-key object `{k: v}`
produces exactly the same result (in particular the same WHERE text) as
compiling `{"$and": [ {k: v} ]}` — `writeBooleanExpr` adds no parentheses,
so the two are byte-identical. -/
theorem claim_C9_implicit_and_idempotence (k : String) (v : Value) (s : QPState) :
    runPredicate (.vdict [(k, v)]) s =
      runPredicate (.vdict [("$and", .varr [.vdict [(k, v)]])]) s := by
  have hs := runPredicate_spec (.vdict [(k, v)]) s
  have hmono := run_mono _ _ _ _ (predicateFuel (.vdict [(k, v)]) + 1) hs (by omega)
  have hw := run_and_wrap (.vdict [(k, v)]) s (predicateFuel (.vdict [(k, v)]))
  rw [hmono] at hw
  exact (runPredicate_of_run hw).symm

/-- The spec's description of the strip step of the path composer: drop a
leading `$.` (two characters), else a leading `$` (one character). -/
def stripDollarSpec (child : List Char) : List Char :=
  if child.take 2 = ['$', '.'] then child.drop 2
  else if child.take 1 = ['$'] then child.drop 1
  else child

/-- The spec's description of the path composer (spec §4.1), stated over
character lists: strip the child, return it alone when the parent is empty,
concatenate without separator when the stripped child begins with `[`, and
join with `.` otherwise. -/
def appendPathsSpec (parent child : List Char) : List Char :=
  if parent = [] then stripDollarSpec child
  else if (stripDollarSpec child).take 1 = ['['] then parent ++ stripDollarSpec child
  else parent ++ '.' :: stripDollarSpec child

theorem stripChild_eq_spec (child : List Char) : stripChild child = stripDollarSpec child := by
  match child with
  | [] => rfl
  | [c] =>
      by_cases hc : c = '$'
      · subst hc; rfl
      · simp [stripChild, stripDollarSpec, strAt, hc]
  | c :: d :: rest =>
      by_cases hc : c = '$'
      · subst hc
        by_cases hd : d = '.'
        · subst hd; rfl
        · simp [stripChild, stripDollarSpec, strAt, hd]
      · simp [stripChild, stripDollarSpec, strAt, hc]

theorem strAt_bracket (l : List Char) : strAt l 0 = '[' ↔ l.take 1 = ['['] := by
  match l with
  | [] => simp [strAt]
  | c :: rest => simp [strAt]

/-- C7.  For every parent and non-empty child, the path composer computes
exactly the function described by the spec: strip a leading `$.` or `$`,
then return the stripped child if the parent is empty, concatenate without a
separator if the stripped child begins with `[`, and join with a `.`
otherwise. -/
theorem claim_C7_append_paths (parent child : String) (_h : child ≠ "") :
    (appendPaths parent child).data = appendPathsSpec parent.data child.data := by
  have h0 : (appendPaths parent child).data = appendPathsL parent.data child.data := rfl
  rw [h0]
  unfold appendPathsL appendPathsSpec
  rw [stripChild_eq_spec]
  by_cases hp : parent.data = []
  · rw [if_pos hp, if_pos hp]
  · rw [if_neg hp, if_neg hp]
    by_cases hb : (stripDollarSpec child.data).take 1 = ['[']
    · rw [if_pos ((strAt_bracket _).mpr hb), if_pos hb]
    · rw [if_neg (fun hx => hb ((strAt_bracket _).mp hx)), if_neg hb]

/-- C7 witness: the composer evaluated at concrete inputs through the
theorem. -/
theorem claim_C7_append_paths_witness :
    ("x" : String) ≠ ""
    ∧ (appendPaths "a" "$.x").data = appendPathsSpec "a".data "$.x".data
    ∧ (appendPaths "a" "[2]").data = appendPathsSpec "a".data "[2]".data
    ∧ (appendPaths "" "$x").data = appendPathsSpec "".data "$x".data :=
  ⟨by decide,
   claim_C7_append_paths "a" "$.x" (by decide),
   claim_C7_append_paths "a" "[2]" (by decide),
   claim_C7_append_paths "" "$x" (by decide)⟩

/-- C4 counterexample.  `{"$foo": 1}` has a `$`-prefixed special key that is
not in the operator table, yet at predicate position the compiler raises no
error at all: the unrecognized key is silently ignored and the build
succeeds with an empty WHERE buffer — contradicting the claim that the
invalid-query error is raised. -/
theorem claim_C4_counterexample :
    parse (some (.vdict [("$foo", .vint 1)])) none (initState "kv_default" "body") =
      .ok { initState "kv_default" "body" with sortSQL := "key" }
    ∧ parse (some (.vdict [("$foo", .vint 1)])) none (initState "kv_default" "body") ≠
        .error .invalidQuery := by
  have h : run 10 (.predicate (.vdict [("$foo", .vint 1)])) (initState "kv_default" "body")
      = some (.ok (initState "kv_default" "body")) := rfl
  have he : parse (some (.vdict [("$foo", .vint 1)])) none (initState "kv_default" "body") =
      parseSort none (initState "kv_default" "body") := parse_of_run_ok h
  constructor
  · rw [he]; rfl
  · rw [he]; intro hx; cases hx

/-- C4 amended.  A `$`-prefixed key that is not in the closed operator table
raises the invalid-query error wherever `findRelation` dispatches on it —
in `parseTerm` and inside `$elemMatch` — but at predicate position a special
key other than `$and`, `$or`, `$nor` and `$not` is silently ignored:
the object contributes no output and no error. -/
theorem claim_C4_unknown_operator_amended :
    (∀ (key : String) (value : Value) (op : String) (payload : Value) (fuel : Nat)
        (s : QPState), getSpecialKeyV value = some (op, payload) →
        kRelationals.find? (fun e => e.op == op) = none →
        run (fuel + 1) (.term key value) s = some (.error .invalidQuery))
    ∧ (∀ (table : String) (value : Value) (op : String) (payload : Value),
        getSpecialKeyV value = some (op, payload) →
        kRelationals.find? (fun e => e.op == op) = none →
        parseElemMatchTerm table value = .error .invalidQuery)
    ∧ (∀ (entries : List (String × Value)) (op : String) (payload : Value) (fuel : Nat)
        (s : QPState), getSpecialKey entries = some (op, payload) →
        op ≠ "$and" → op ≠ "$or" → op ≠ "$nor" → op ≠ "$not" →
        run (fuel + 1) (.predicate (.vdict entries)) s = some (.ok s)) := by
  refine ⟨?_, ?_, ?_⟩
  · intro key value op payload fuel s hsp hfind
    have hrel : findRelation value = .error .invalidQuery := by
      unfold findRelation
      rw [hsp]
      show (match kRelationals.find? (fun e => e.op == op) with
            | some e => Except.ok (RelFound.found e payload)
            | none => Except.error QPError.invalidQuery) = Except.error QPError.invalidQuery
      rw [hfind]
    simp only [run, hrel]
  · intro table value op payload hsp hfind
    have hrel : findRelation value = .error .invalidQuery := by
      unfold findRelation
      rw [hsp]
      show (match kRelationals.find? (fun e => e.op == op) with
            | some e => Except.ok (RelFound.found e payload)
            | none => Except.error QPError.invalidQuery) = Except.error QPError.invalidQuery
      rw [hfind]
    unfold parseElemMatchTerm
    rw [hrel]
  · intro entries op payload fuel s hk h1 h2 h3 h4
    simp only [run, hk]
    rw [if_neg h1, if_neg h2, if_neg h3, if_neg h4]

/-- C4 amended witness: `$foo` in operator position fails, the same key at
predicate position succeeds silently. -/
theorem claim_C4_unknown_operator_amended_witness :
    run 1 (.term "a" (.vdict [("$foo", .vnull)])) (initState "t" "c") =
      some (.error .invalidQuery)
    ∧ parseElemMatchTerm "fl_each" (.vdict [("$foo", .vnull)]) = .error .invalidQuery
    ∧ run 1 (.predicate (.vdict [("$foo", .vnull)])) (initState "t" "c") =
        some (.ok (initState "t" "c")) :=
  ⟨claim_C4_unknown_operator_amended.1 "a" _ "$foo" .vnull 0 _ rfl rfl,
   claim_C4_unknown_operator_amended.2.1 "fl_each" _ "$foo" .vnull rfl rfl,
   claim_C4_unknown_operator_amended.2.2 [("$foo", .vnull)] "$foo" .vnull 0 _ rfl
     (by decide) (by decide) (by decide) (by decide)⟩

theorem writeOrderBy_path {v : Value} {s s' : QPState} (h : writeOrderBy v s = .ok s') :
    s'.propertyPath = s.propertyPath := by
  simp only [writeOrderBy] at h
  split at h
  · cases h
  · split at h
    · cases h
      rfl
    · cases h
      rfl

theorem sortList_path : ∀ (l : List Value) (first : Bool) (s s' : QPState),
    sortList l first s = .ok s' → s'.propertyPath = s.propertyPath := by
  intro l
  induction l with
  | nil =>
      intro first s s' h
      simp only [sortList] at h
      cases h
      rfl
  | cons v rest ih =>
      intro first s s' h
      simp only [sortList] at h
      cases hw : writeOrderBy v (if first then s else emitSort ", " s) with
      | error e => rw [hw] at h; cases h
      | ok s₁ =>
          rw [hw] at h
          have h1 := writeOrderBy_path hw
          have h2 := ih false s₁ s' h
          rw [h2, h1]
          by_cases hf : first = true

          · rw [if_pos hf]
          · rw [if_neg hf]; rfl

theorem parseSort_path {e : Option Value} {s s' : QPState} (h : parseSort e s = .ok s') :
    s'.propertyPath = s.propertyPath := by
  match e with
  | none =>
      simp only [parseSort] at h
      cases h
      rfl
  | some (.vstr t) =>
      have h' : writeOrderBy (.vstr t) s = .ok s' := h
      exact writeOrderBy_path h'
  | some (.varr items) =>
      have h' : sortList items true s = .ok s' := h
      exact sortList_path items true s s' h'
  | some .vnull | some (.vbool _) | some (.vint _) | some (.vdict _) =>
      simp [parseSort] at h

theorem parse_path {whereE sortE : Option Value} {s s' : QPState}
    (h : parse whereE sortE s = .ok s') : s'.propertyPath = s.propertyPath := by
  match whereE with
  | none => exact parseSort_path h
  | some q =>
      have hp : parse (some q) sortE s =
          (match runPredicate q s with
           | .error e' => .error e'
           | .ok s₁ => parseSort sortE s₁) := rfl
      rw [hp] at h
      cases hr : runPredicate q s with
      | error e => rw [hr] at h; cases h
      | ok s₁ =>
          rw [hr] at h
          have hrun := runPredicate_spec q s
          rw [hr] at hrun
          have h1 := (run_stepOK _ _ _ _ hrun).1
          have h2 := parseSort_path h
          rw [h2, h1]

/-- C8.  Path-stack discipline: a fresh compiler's `property_path` is empty,
and whenever the predicate parser or a whole `parse` call completes without
error, the observable `property_path` after the call equals its value before
(each descent in `parseSubPropertyTerm` restores the prefix saved on
entry). -/
theorem claim_C8_property_path_stack :
    (∀ tableName jsonColumnName : String,
      (initState tableName jsonColumnName).propertyPath = "")
    ∧ (∀ (fuel : Nat) (c : Call) (s s' : QPState), run fuel c s = some (.ok s') →
        s'.propertyPath = s.propertyPath)
    ∧ (∀ (whereE sortE : Option Value) (s s' : QPState), parse whereE sortE s = .ok s' →
        s'.propertyPath = s.propertyPath) :=
  ⟨fun _ _ => rfl,
   fun fuel c s s' h => (run_stepOK fuel c s s' h).1,
   fun _ _ _ _ h => parse_path h⟩

/-- C8 witness: a build with a nested sub-property descent ends with the
empty property path it started with. -/
theorem claim_C8_property_path_stack_witness :
    (initState "kv_default" "body").propertyPath = ""
    ∧ parse (some (.vdict [("a", .vdict [("b", .vint 1)])])) none
        (initState "kv_default" "body") =
      .ok { initState "kv_default" "body" with
            sql := "(fl_value(body, 'a.b') = 1)", sortSQL := "key" }
    ∧ ({ initState "kv_default" "body" with
         sql := "(fl_value(body, 'a.b') = 1)", sortSQL := "key" } : QPState).propertyPath =
        (initState "kv_default" "body").propertyPath := by
  have h : run 10 (.predicate (.vdict [("a", .vdict [("b", .vint 1)])]))
      (initState "kv_default" "body") =
      some (.ok { initState "kv_default" "body" with
                  sql := "(fl_value(body, 'a.b') = 1)" }) := rfl
  have hparse : parse (some (.vdict [("a", .vdict [("b", .vint 1)])])) none
      (initState "kv_default" "body") =
      .ok { initState "kv_default" "body" with
            sql := "(fl_value(body, 'a.b') = 1)", sortSQL := "key" } := by
    rw [parse_of_run_ok h]; rfl
  exact ⟨claim_C8_property_path_stack.1 "kv_default" "body", hparse,
    claim_C8_property_path_stack.2.2 _ none _ _ hparse⟩

theorem FTSPropertyIndex_get : ∀ (props : List String) (p : String),
    FTSPropertyIndex props p ≠ 0 → props[FTSPropertyIndex props p - 1]? = some p := by
  intro props p
  induction props with
  | nil => intro h; simp [FTSPropertyIndex] at h
  | cons q rest ih =>
      intro h
      by_cases hq : q = p
      · simp [FTSPropertyIndex, hq]
      · simp only [FTSPropertyIndex, if_neg hq] at h ⊢
        by_cases hr : FTSPropertyIndex rest p = 0
        · simp [hr] at h
        · rw [if_neg hr] at h ⊢
          have ihr := ih hr
          have hpos : 1 ≤ FTSPropertyIndex rest p := Nat.one_le_iff_ne_zero.mpr hr
          rw [show FTSPropertyIndex rest p + 1 - 1 = (FTSPropertyIndex rest p - 1) + 1 by omega]
          simpa using ihr

theorem FTSPropertyIndex_append_stable : ∀ (props ext : List String) (p : String),
    FTSPropertyIndex props p ≠ 0 →
    FTSPropertyIndex (props ++ ext) p = FTSPropertyIndex props p := by
  intro props ext p
  induction props with
  | nil => intro h; simp [FTSPropertyIndex] at h
  | cons q rest ih =>
      intro h
      by_cases hq : q = p
      · simp [FTSPropertyIndex, hq]
      · simp only [List.cons_append, FTSPropertyIndex, List.append_eq, if_neg hq] at h ⊢
        by_cases hr : FTSPropertyIndex rest p = 0
        · simp [hr] at h
        · rw [ih hr, if_neg hr]

theorem FTSPropertyIndex_append_self : ∀ (props : List String) (p : String),
    FTSPropertyIndex props p = 0 →
    FTSPropertyIndex (props ++ [p]) p = props.length + 1 := by
  intro props p
  induction props with
  | nil => intro _; simp [FTSPropertyIndex]
  | cons q rest ih =>
      intro h
      by_cases hq : q = p
      · simp [FTSPropertyIndex, hq] at h
      · simp only [FTSPropertyIndex, if_neg hq] at h
        have hr0 : FTSPropertyIndex rest p = 0 := by
          by_cases hr : FTSPropertyIndex rest p = 0
          · exact hr
          · simp [hr] at h
        simp only [List.cons_append, FTSPropertyIndex, List.append_eq, if_neg hq]
        rw [ih hr0]
        simp

theorem ftsTableNames_get (s : QPState) (k : Nat) (p : String)
    (h : s.ftsProperties[k]? = some p) :
    (ftsTableNames s)[k]? = some ("\"" ++ s.tableName ++ "::" ++ p ++ "\"") := by
  unfold ftsTableNames
  simp [h]

theorem fromClauseAux_enumFrom (t : String) : ∀ (l : List String) (n : Nat),
    fromClauseAux t l n = ((List.enumFrom n l).map (fun ki =>
      ", \"" ++ t ++ "::" ++ ki.2 ++ "\" AS FTS" ++ toString (ki.1 + 1))).foldr
        (fun a b => a ++ b) "" := by
  intro l
  induction l with
  | nil => intro n; rfl
  | cons p rest ih =>
      intro n
      simp only [fromClauseAux, List.enumFrom, List.map, List.foldr, ih (n + 1)]

/-- The behaviour of one `parseFTSMatch` call: afterwards the full property
path is recorded, the `FTSk` alias emitted into the WHERE text carries
exactly the 1-based index of that path in the (final) FTS property list, a
path already present keeps the list unchanged, and a new path is appended
and numbered by the new length. -/
theorem parseFTSMatch_char {property : String} {matchv : Value} {s s' : QPState}
    (h : parseFTSMatch property matchv s = .ok s') :
    FTSPropertyIndex s'.ftsProperties (appendPaths s.propertyPath property) ≠ 0
    ∧ s'.ftsProperties[FTSPropertyIndex s'.ftsProperties
          (appendPaths s.propertyPath property) - 1]?
        = some (appendPaths s.propertyPath property)
    ∧ (∃ lit, writeLiteral matchv = .ok lit ∧
        s'.sql = s.sql ++ ftsMatchText
          (FTSPropertyIndex s'.ftsProperties (appendPaths s.propertyPath property))
          lit s.tableName)
    ∧ (FTSPropertyIndex s.ftsProperties (appendPaths s.propertyPath property) ≠ 0 →
        s'.ftsProperties = s.ftsProperties)
    ∧ (FTSPropertyIndex s.ftsProperties (appendPaths s.propertyPath property) = 0 →
        s'.ftsProperties = s.ftsProperties ++ [appendPaths s.propertyPath property]) := by
  unfold parseFTSMatch at h
  split at h
  · cases h
  · next lit hw =>
      split at h
      · next hf =>
          cases h
          have hidx : FTSPropertyIndex
              (s.ftsProperties ++ [appendPaths s.propertyPath property])
              (appendPaths s.propertyPath property) = s.ftsProperties.length + 1 :=
            FTSPropertyIndex_append_self _ _ hf
          refine ⟨?_, ?_, ?_, ?_, ?_⟩
          · show FTSPropertyIndex (s.ftsProperties ++ [appendPaths s.propertyPath property])
                (appendPaths s.propertyPath property) ≠ 0
            rw [hidx]; omega
          · show (s.ftsProperties ++ [appendPaths s.propertyPath property])[FTSPropertyIndex
                (s.ftsProperties ++ [appendPaths s.propertyPath property])
                (appendPaths s.propertyPath property) - 1]? = _
            rw [hidx]
            simp
          · refine ⟨lit, hw, ?_⟩
            show (emit (ftsMatchText (s.ftsProperties.length + 1) lit s.tableName) s).sql = _
            rw [show FTSPropertyIndex
                (s.ftsProperties ++ [appendPaths s.propertyPath property])
                (appendPaths s.propertyPath property) = s.ftsProperties.length + 1 from hidx]
            rfl
          · intro hne; exact absurd hf hne
          · intro _; rfl
      · next hf =>
          cases h
          refine ⟨hf, FTSPropertyIndex_get _ _ hf, ⟨lit, hw, rfl⟩, fun _ => rfl,
            fun h0 => absurd h0 hf⟩

/-- C2.  FTS index consistency: across any run of the predicate parser the
FTS property list only grows at its end; a `$match` records its full
property path at first occurrence (numbered by the new length) and reuses
the existing 1-based index later, and the `FTSk` index written into the
WHERE text is exactly the position of that path in the final list; indices
already assigned are stable under later appends; the k-th FTS table name is
the quoted `"<table>::<path>"` of the k-th recorded path; and the FROM
clause lists the documents table followed by the FTS tables aliased
`FTS1`, `FTS2`, … in first-occurrence order. -/
theorem claim_C2_fts_index_consistency :
    (∀ (fuel : Nat) (c : Call) (s s' : QPState), run fuel c s = some (.ok s') →
      ∃ ext, s'.ftsProperties = s.ftsProperties ++ ext)
    ∧ (∀ (property : String) (matchv : Value) (s s' : QPState),
        parseFTSMatch property matchv s = .ok s' →
        FTSPropertyIndex s'.ftsProperties (appendPaths s.propertyPath property) ≠ 0
        ∧ s'.ftsProperties[FTSPropertyIndex s'.ftsProperties
              (appendPaths s.propertyPath property) - 1]?
            = some (appendPaths s.propertyPath property)
        ∧ (∃ lit, writeLiteral matchv = .ok lit ∧
            s'.sql = s.sql ++ ftsMatchText
              (FTSPropertyIndex s'.ftsProperties (appendPaths s.propertyPath property))
              lit s.tableName)
        ∧ (FTSPropertyIndex s.ftsProperties (appendPaths s.propertyPath property) ≠ 0 →
            s'.ftsProperties = s.ftsProperties)
        ∧ (FTSPropertyIndex s.ftsProperties (appendPaths s.propertyPath property) = 0 →
            s'.ftsProperties = s.ftsProperties ++ [appendPaths s.propertyPath property]))
    ∧ (∀ (props ext : List String) (p : String), FTSPropertyIndex props p ≠ 0 →
        FTSPropertyIndex (props ++ ext) p = FTSPropertyIndex props p)
    ∧ (∀ (s : QPState) (k : Nat) (p : String), s.ftsProperties[k]? = some p →
        (ftsTableNames s)[k]? = some ("\"" ++ s.tableName ++ "::" ++ p ++ "\""))
    ∧ (∀ s : QPState, fromClause s = s.tableName ++
        ((List.enumFrom 0 s.ftsProperties).map (fun ki =>
          ", \"" ++ s.tableName ++ "::" ++ ki.2 ++ "\" AS FTS" ++ toString (ki.1 + 1))).foldr
          (fun a b => a ++ b) "") :=
  ⟨fun fuel c s s' h => (run_stepOK fuel c s s' h).2,
   fun _ _ _ _ h => parseFTSMatch_char h,
   fun props ext p h => FTSPropertyIndex_append_stable props ext p h,
   fun s k p h => ftsTableNames_get s k p h,
   fun s => by unfold fromClause; rw [fromClauseAux_enumFrom]⟩

/-- C2 witness: the consistency statements evaluated on a concrete FTS
build (`{"t":{"$match":"w"}}` over table `tbl`, column `c`). -/
theorem claim_C2_fts_index_consistency_witness :
    (∃ ext, (["t"] : List String) = ([] : List String) ++ ext)
    ∧ FTSPropertyIndex ["t"] (appendPaths "" "t") ≠ 0
    ∧ FTSPropertyIndex (["a", "b"] ++ ["c"]) "b" = FTSPropertyIndex ["a", "b"] "b"
    ∧ (ftsTableNames { initState "tbl" "c" with ftsProperties := ["t"] })[0]? =
        some "\"tbl::t\""
    ∧ fromClause { initState "tbl" "c" with ftsProperties := ["t", "u"] } =
        "tbl" ++ ((List.enumFrom 0 ["t", "u"]).map (fun ki =>
          ", \"" ++ "tbl" ++ "::" ++ ki.2 ++ "\" AS FTS" ++ toString (ki.1 + 1))).foldr
          (fun a b => a ++ b) "" :=
  ⟨claim_C2_fts_index_consistency.1 10
      (.predicate (.vdict [("t", .vdict [("$match", .vstr "w")])]))
      (initState "tbl" "c")
      { emit (ftsMatchText 1 "'w'" "tbl") (initState "tbl" "c") with ftsProperties := ["t"] }
      rfl,
   (claim_C2_fts_index_consistency.2.1 "t" (.vstr "w") (initState "tbl" "c")
      { emit (ftsMatchText 1 "'w'" "tbl") (initState "tbl" "c") with ftsProperties := ["t"] }
      rfl).1,
   claim_C2_fts_index_consistency.2.2.1 ["a", "b"] ["c"] "b" (by decide),
   claim_C2_fts_index_consistency.2.2.2.1 _ 0 "t" rfl,
   claim_C2_fts_index_consistency.2.2.2.2 _⟩

end LiteCore
